import Mathlib

/-!
Shallow embedding of the Liberty Unleashed server directory daemon
(`cmd/lusd/main.go`): the registration store (`ServerList`), its
`Report` / `GetActive` operations, the periodic staleness sweep
(`cleanupLoop` body), the `/report.php` HTTP handler pipeline with its
security middleware, and `loadConfig`.

Time is modelled as `Int` Unix seconds (the Go code stores
`time.Now().Unix()` values and compares them with a cutoff in seconds;
`staleTimeout` is a whole number of seconds).  A Go `map[string]int64`
is modelled as an association list with map semantics: assignment
replaces any entry with the same key, and `GetActive` sorts its output,
so the list order never shows through.
-/

namespace LUSD

/-- Lexicographic comparison of character lists: the order used by Go's
`sort.Strings` (byte-wise lexicographic; identical to character-wise
lexicographic on the ASCII address strings this service handles). -/
def charListLe : List Char → List Char → Bool
  | [], _ => true
  | _ :: _, [] => false
  | a :: as, b :: bs => if a < b then true else if b < a then false else charListLe as bs

/-- Lexicographic `≤` on strings, as compared by Go's `sort.Strings`. -/
def strLe (a b : String) : Bool := charListLe a.data b.data

/-- The runtime configuration (`Config` in main.go). The Go
`map[string]bool` blacklist is modelled as the list of its keys. -/
structure Config where
  port : Int
  allowedUserAgent : String
  staleTimeout : Int
  blacklist : List String
  officialServers : List String
  logFile : String
  logEnabled : Bool
deriving DecidableEq

/-- The registration mapping `ServerList.Entries : map[string]int64`:
address (host:port string) to last-report Unix timestamp. -/
abbrev Entries := List (String × Int)

/-- Go map read `m[k]` (with presence flag): the value stored at `k`. -/
def lookupTs (m : Entries) (k : String) : Option Int :=
  (m.find? (fun e => e.1 == k)).map (fun e => e.2)

/-- Go map assignment `m[k] = v`: replaces any existing entry for `k`. -/
def setEntry (m : Entries) (k : String) (v : Int) : Entries :=
  (k, v) :: m.filter (fun e => e.1 != k)

/-- Model of `ServerList.Report(ip, port)` (main.go:73-78):
`addr := fmt.Sprintf("%s:%d", ip, port); s.Entries[addr] = time.Now().Unix()`.
The implicit clock is passed explicitly as `now`. -/
def report (m : Entries) (ip : String) (port : Int) (now : Int) : Entries :=
  setEntry m (ip ++ ":" ++ toString port) now

/-- Model of `ServerList.GetActive()` (main.go:80-106): cutoff = now - staleTimeout;
collect every reported address with `ts >= cutoff` plus every official
server into a set (`activeMap`), then return the sorted key list. -/
def getActive (m : Entries) (cfg : Config) (now : Int) : List String :=
  let cutoff := now - cfg.staleTimeout
  let keys := (m.filter (fun e => decide (cutoff ≤ e.2))).map (fun e => e.1)
  ((keys ++ cfg.officialServers).dedup).insertionSort (fun a b => strLe a b)

/-- One pass of the body of `ServerList.cleanupLoop` (main.go:108-123):
delete every entry with `ts < cutoff` where cutoff = now - staleTimeout. -/
def cleanupSweep (m : Entries) (cfg : Config) (now : Int) : Entries :=
  let cutoff := now - cfg.staleTimeout
  m.filter (fun e => !decide (e.2 < cutoff))

/-! ### The `/report.php` pipeline (main.go:531-601)

Go standard-library primitives (`net.SplitHostPort`, `net.ParseIP`,
`time.ParseDuration`) are not code of this repository; they are taken
as abstract parameters bundled in `GoPrims`; `strconv.Atoi` is
modelled concretely by `atoi`. -/

/-- Abstract Go standard-library primitives used by the handlers and
config loader: `net.SplitHostPort` (host, port on success; `none` on
error), `net.ParseIP` success (`true` iff the string is a valid IP
literal), and `time.ParseDuration` (result in whole seconds). -/
structure GoPrims where
  splitHostPort : String → Option (String × String)
  parseIPOk : String → Bool
  parseDuration : String → Option Int

/-- Value of a non-empty all-digit run, for the `strconv.Atoi` model. -/
def digitsVal (cs : List Char) : Option Nat :=
  if cs = [] then none
  else if cs.all (fun c => c.isDigit) then
    some (cs.foldl (fun n c => n * 10 + (c.toNat - '0'.toNat)) 0)
  else none

/-- Model of `strconv.Atoi`: an optional sign followed by at least one
digit (overflow is out of range for any accepted port anyway). -/
def atoi (s : String) : Option Int :=
  match s.data with
  | '+' :: rest => (digitsVal rest).map (fun n => (n : Int))
  | '-' :: rest => (digitsVal rest).map (fun n => -(n : Int))
  | cs => (digitsVal cs).map (fun n => (n : Int))

/-- An inbound HTTP request as seen by the report pipeline.  `portField`
is `r.FormValue("port")`, which yields `""` when the field is absent
(body-size and form-encoding failures are out of scope). -/
structure Request where
  method : String
  userAgent : String
  portField : String
  remoteAddr : String

/-- HTTP response statuses produced by the report pipeline. -/
inductive HStatus where
  | ok
  | badRequest
  | forbidden
  | methodNotAllowed
  | tooManyRequests
deriving DecidableEq

/-- The inner `/report.php` handler (main.go:556-601): method check,
user-agent check, `port` form-field presence, `strconv.Atoi` plus range
check `[1024, 65535]`, then `net.SplitHostPort(r.RemoteAddr)`; a split
error or a blacklisted source IP is silently acknowledged with 200; an
invalid IP literal is a 400; otherwise `servers.Report(ip, port)`. -/
def reportHandler (cfg : Config) (go : GoPrims) (req : Request) (now : Int)
    (m : Entries) : HStatus × Entries :=
  if req.method ≠ "POST" then (.methodNotAllowed, m)
  else if req.userAgent ≠ cfg.allowedUserAgent then (.forbidden, m)
  else if req.portField = "" then (.badRequest, m)
  else
    match atoi req.portField with
    | none => (.badRequest, m)
    | some port =>
      if port < 1024 ∨ port > 65535 then (.badRequest, m)
      else
        match go.splitHostPort req.remoteAddr with
        | none => (.ok, m)
        | some (ip, _) =>
          if cfg.blacklist.contains ip then (.ok, m)
          else if go.parseIPOk ip = false then (.badRequest, m)
          else (.ok, report m ip port now)

/-- The `securityMiddleware` (main.go:532-554) wrapped around the report
handler: `net.SplitHostPort(r.RemoteAddr)` failure is a 400, a failed
rate-limit check (abstracted to the boolean `rateOk`) is a 429, and
only then does the inner handler run. -/
def reportEndpoint (cfg : Config) (go : GoPrims) (rateOk : Bool) (req : Request)
    (now : Int) (m : Entries) : HStatus × Entries :=
  match go.splitHostPort req.remoteAddr with
  | none => (.badRequest, m)
  | some _ =>
    if !rateOk then (.tooManyRequests, m)
    else reportHandler cfg go req now m

/-! ### System traces -/

/-- One event that can mutate the registration mapping: an HTTP request
through the report endpoint, or one pass of the cleanup sweep. -/
inductive SysStep where
  | http (req : Request) (rateOk : Bool) (now : Int)
  | sweep (now : Int)

/-- Effect of one `SysStep` on the registration mapping. -/
def sysApply (cfg : Config) (go : GoPrims) (m : Entries) : SysStep → Entries
  | .http req rateOk now => (reportEndpoint cfg go rateOk req now m).2
  | .sweep now => cleanupSweep m cfg now

/-- Run a sequence of `SysStep`s from a starting mapping. -/
def sysRun (cfg : Config) (go : GoPrims) (m : Entries) : List SysStep → Entries
  | [] => m
  | s :: rest => sysRun cfg go (sysApply cfg go m s) rest

/-- A key admitted through the report endpoint: `ip ++ ":" ++ port` with
a valid IP literal and a port in `[1024, 65535]`. -/
def goodKey (go : GoPrims) (k : String) : Prop :=
  ∃ (ip : String) (port : Int), k = ip ++ ":" ++ toString port ∧
    go.parseIPOk ip = true ∧ 1024 ≤ port ∧ port ≤ 65535

/-- One direct Registry mutation: a `Report(ip, port)` call or a sweep
pass (used for the temporal claim, which quantifies over Report/sweep
sequences below the HTTP layer). -/
inductive Op where
  | report (ip : String) (port : Int)
  | sweep

/-- Effect of one `Op` executed when the clock reads `t`. -/
def opApply (cfg : Config) (m : Entries) : Op → Int → Entries
  | .report ip port, t => report m ip port t
  | .sweep, t => cleanupSweep m cfg t

/-- Run a sequence of timestamped `Op`s. -/
def opRun (cfg : Config) (m : Entries) : List (Op × Int) → Entries
  | [] => m
  | (op, t) :: rest => opRun cfg (opApply cfg m op t) rest

/-- The clock is non-decreasing along the trace and starts at or after `c`. -/
def timesMono : Int → List (Op × Int) → Prop
  | _, [] => True
  | c, (_, t) :: rest => c ≤ t ∧ timesMono t rest

/-- Every stored timestamp is at most `c` (the clock never ran backwards
while the mapping was built). -/
def boundedBy (m : Entries) (c : Int) : Prop :=
  ∀ e ∈ m, e.2 ≤ c

/-- Along a trace, no step moves a present key to a present state with a
smaller stored timestamp. -/
def neverDecreases (cfg : Config) : Entries → List (Op × Int) → Prop
  | _, [] => True
  | m, (op, t) :: rest =>
      (∀ k t₁ t₂, lookupTs m k = some t₁ →
        lookupTs (opApply cfg m op t) k = some t₂ → t₁ ≤ t₂)
      ∧ neverDecreases cfg (opApply cfg m op t) rest

/-! ### `loadConfig` (main.go:125-314) -/

/-- The parsed shape of `config.json` (`jsonConfig` in main.go), as it
comes out of a successful `json.Unmarshal`. -/
structure JsonConfig where
  port : Int
  allowedUserAgent : String
  staleTimeout : String
  blacklist : List String
  officialServers : List String
  logFile : String
  logEnabled : Bool

/-- Outcome of the config-file access: `os.Stat` says it does not exist,
`secureReadFile` fails, `json.Unmarshal` fails, or parsing succeeds. -/
inductive FileOutcome where
  | missing
  | readError
  | parseError
  | parsed (j : JsonConfig)

/-- The `LUSD_*` environment variables; `os.Getenv` yields `""` when a
variable is unset, and every override guard starts with `!= ""`. -/
structure Env where
  port : String
  userAgent : String
  staleTimeout : String
  logFile : String
  logEnabled : String

/-- Model of `strconv.ParseBool`. -/
def parseBool : String → Option Bool
  | "1" | "t" | "T" | "TRUE" | "true" | "True" => some true
  | "0" | "f" | "F" | "FALSE" | "false" | "False" => some false
  | _ => none

/-- Model of `strings.Contains s sub` for non-empty `sub`. -/
def containsSub (s sub : String) : Bool :=
  (s.splitOn sub).length ≥ 2

/-- The hardcoded default configuration (main.go:128-136):
port 80, user agent "LU-Server/0.1", stale timeout 10 minutes
(600 seconds), empty blacklist and official list, log file
"lusd_server.log", logging enabled. -/
def defaultCfg : Config :=
  { port := 80
    allowedUserAgent := "LU-Server/0.1"
    staleTimeout := 600
    blacklist := []
    officialServers := []
    logFile := "lusd_server.log"
    logEnabled := true }

/-- Model of `loadConfig` (main.go:127-314).  `pathHasDotDot` abstracts the
`strings.Contains(filepath.Clean(path), "..")` guard on the config
path; `file` is the outcome of stat/read/unmarshal (in the `missing`
branch the code also writes a default config file, which does not
affect the returned value).  Only a successfully parsed file reaches
the validation and `LUSD_*` environment-override section. -/
def loadConfig (go : GoPrims) (pathHasDotDot : Bool) (file : FileOutcome)
    (env : Env) : Config :=
  if pathHasDotDot then defaultCfg
  else
    match file with
    | .missing => defaultCfg
    | .readError => defaultCfg
    | .parseError => defaultCfg
    | .parsed j =>
      let staleTimeout :=
        match go.parseDuration j.staleTimeout with
        | none => defaultCfg.staleTimeout
        | some d => d
      let blacklist := j.blacklist.foldl (fun acc ip0 =>
        let ip := ip0.trim
        if ip = "" then acc
        else if go.parseIPOk ip = false then acc
        else if acc.contains ip then acc
        else acc ++ [ip]) []
      let officialServers := j.officialServers.foldl (fun acc addr0 =>
        let addr := addr0.trim
        if addr = "" then acc
        else
          let host :=
            match go.splitHostPort addr with
            | some (h, _) => h
            | none => addr
          if go.parseIPOk host = false then acc
          else acc ++ [addr]) []
      let port := if j.port < 1 ∨ j.port > 65535 then defaultCfg.port else j.port
      let ua := if j.allowedUserAgent = "" then defaultCfg.allowedUserAgent
        else j.allowedUserAgent
      let logFile := if j.logFile = "" then defaultCfg.logFile else j.logFile
      let port :=
        if env.port ≠ "" then
          match env.port.toInt? with
          | some p => if 0 < p ∧ p ≤ 65535 then p else port
          | none => port
        else port
      let ua :=
        if env.userAgent ≠ "" then
          if 0 < env.userAgent.length ∧ env.userAgent.length ≤ 100 then env.userAgent
          else ua
        else ua
      let staleTimeout :=
        if env.staleTimeout ≠ "" then
          match go.parseDuration env.staleTimeout with
          | some d => if 0 < d then d else staleTimeout
          | none => staleTimeout
        else staleTimeout
      let logFile :=
        if env.logFile ≠ "" then
          if 0 < env.logFile.length ∧ env.logFile.length ≤ 255 ∧
              containsSub env.logFile ".." = false then env.logFile
          else logFile
        else logFile
      let logEnabled :=
        if env.logEnabled ≠ "" then
          match parseBool env.logEnabled with
          | some b => b
          | none => j.logEnabled
        else j.logEnabled
      { port := port
        allowedUserAgent := ua
        staleTimeout := staleTimeout
        blacklist := blacklist
        officialServers := officialServers
        logFile := logFile
        logEnabled := logEnabled }

/-! ### Order properties of the lexicographic comparison -/

theorem charListLe_total : ∀ as bs : List Char,
    charListLe as bs = true ∨ charListLe bs as = true := by
  intro as
  induction as with
  | nil => intro bs; left; rfl
  | cons a as ih =>
    intro bs
    cases bs with
    | nil => right; rfl
    | cons b bs =>
      rcases lt_trichotomy a b with h | h | h
      · left; simp [charListLe, h]
      · subst h
        simpa [charListLe] using ih bs
      · right; simp [charListLe, h]

theorem charListLe_trans : ∀ as bs cs : List Char,
    charListLe as bs = true → charListLe bs cs = true → charListLe as cs = true := by
  intro as
  induction as with
  | nil => intro bs cs _ _; rfl
  | cons a as ih =>
    intro bs cs h1 h2
    cases bs with
    | nil => simp [charListLe] at h1
    | cons b bs =>
      cases cs with
      | nil => simp [charListLe] at h2
      | cons c cs =>
        rcases lt_trichotomy a b with hab | hab | hab
        · rcases lt_trichotomy b c with hbc | hbc | hbc
          · simp [charListLe, lt_trans hab hbc]
          · subst hbc; simp [charListLe, hab]
          · simp [charListLe, hbc, lt_asymm hbc] at h2
        · subst hab
          simp only [charListLe, lt_irrefl, if_false] at h1
          rcases lt_trichotomy a c with hac | hac | hac
          · simp [charListLe, hac]
          · subst hac
            simp only [charListLe, lt_irrefl, if_false] at h2 ⊢
            exact ih bs cs h1 h2
          · simp [charListLe, hac, lt_asymm hac] at h2
        · simp [charListLe, hab, lt_asymm hab] at h1

theorem charListLe_antisymm : ∀ as bs : List Char,
    charListLe as bs = true → charListLe bs as = true → as = bs := by
  intro as
  induction as with
  | nil =>
    intro bs _ h2
    cases bs with
    | nil => rfl
    | cons b bs => simp [charListLe] at h2
  | cons a as ih =>
    intro bs h1 h2
    cases bs with
    | nil => simp [charListLe] at h1
    | cons b bs =>
      rcases lt_trichotomy a b with hab | hab | hab
      · simp [charListLe, hab, lt_asymm hab] at h2
      · subst hab
        simp only [charListLe, lt_irrefl, if_false] at h1 h2
        exact congrArg (a :: ·) (ih bs h1 h2)
      · simp [charListLe, hab, lt_asymm hab] at h1

/-- Comparison `charListLe` is exactly the reflexive closure of Mathlib's
lexicographic strict order on character lists. -/
theorem charListLe_iff_lex : ∀ as bs : List Char,
    charListLe as bs = true ↔ (as = bs ∨ List.Lex (· < ·) as bs) := by
  intro as
  induction as with
  | nil =>
    intro bs
    cases bs with
    | nil => simp [charListLe]
    | cons b bs => simp [charListLe, List.Lex.nil]
  | cons a as ih =>
    intro bs
    cases bs with
    | nil =>
      simp [charListLe, List.Lex.not_nil_right]
    | cons b bs =>
      rcases lt_trichotomy a b with hab | hab | hab
      · rw [show charListLe (a :: as) (b :: bs) = true by simp [charListLe, hab]]
        simp only [true_iff]
        exact Or.inr (List.Lex.rel hab)
      · subst hab
        rw [show charListLe (a :: as) (a :: bs) = charListLe as bs by simp [charListLe],
          ih bs]
        constructor
        · rintro (h | h)
          · exact Or.inl (by rw [h])
          · exact Or.inr (List.Lex.cons h)
        · rintro (h | h)
          · injection h with _ h2
            exact Or.inl h2
          · exact Or.inr ((List.Lex.cons_iff).mp h)
      · rw [show charListLe (a :: as) (b :: bs) = false by
          simp [charListLe, hab, lt_asymm hab]]
        simp only [Bool.false_eq_true, false_iff]
        rintro (h | h)
        · injection h with h1 _
          exact absurd h1 (ne_of_gt hab)
        · cases h with
          | cons h' => exact absurd hab (lt_irrefl _)
          | rel h' => exact absurd h' (lt_asymm hab)

theorem strLe_total (a b : String) : strLe a b = true ∨ strLe b a = true :=
  charListLe_total a.data b.data

theorem strLe_trans (a b c : String) :
    strLe a b = true → strLe b c = true → strLe a c = true :=
  charListLe_trans a.data b.data c.data

theorem strLe_antisymm (a b : String) :
    strLe a b = true → strLe b a = true → a = b := by
  intro h1 h2
  exact String.ext (charListLe_antisymm a.data b.data h1 h2)

instance : IsTotal String (fun a b => strLe a b = true) :=
  ⟨strLe_total⟩

instance : IsTrans String (fun a b => strLe a b = true) :=
  ⟨strLe_trans⟩

/-! ### Helper lemmas about the registry operations -/

theorem mem_getActive (m : Entries) (cfg : Config) (now : Int) (a : String) :
    a ∈ getActive m cfg now ↔
      (∃ ts, (a, ts) ∈ m ∧ now - cfg.staleTimeout ≤ ts) ∨ a ∈ cfg.officialServers := by
  simp only [getActive, List.mem_insertionSort, List.mem_dedup, List.mem_append,
    List.mem_map, List.mem_filter, decide_eq_true_eq]
  constructor
  · rintro (⟨e, ⟨hm, hts⟩, rfl⟩ | h)
    · exact Or.inl ⟨e.2, hm, hts⟩
    · exact Or.inr h
  · rintro (⟨ts, hm, hts⟩ | h)
    · exact Or.inl ⟨(a, ts), ⟨hm, hts⟩, rfl⟩
    · exact Or.inr h

theorem getActive_sorted (m : Entries) (cfg : Config) (now : Int) :
    (getActive m cfg now).Sorted (fun a b => strLe a b = true) := by
  simp only [getActive]
  exact List.sorted_insertionSort _ _

theorem getActive_nodup (m : Entries) (cfg : Config) (now : Int) :
    (getActive m cfg now).Nodup := by
  simp only [getActive]
  exact ((List.perm_insertionSort _ _).nodup_iff).mpr (List.nodup_dedup _)

theorem filter_keep_of_sweep (m : Entries) (c : Int) :
    (m.filter (fun e => !decide (e.2 < c))).filter (fun e => decide (c ≤ e.2))
      = m.filter (fun e => decide (c ≤ e.2)) := by
  rw [List.filter_filter]
  apply List.filter_congr
  intro e _
  by_cases h : c ≤ e.2
  · simp [h, not_lt.mpr h]
  · simp [h, lt_of_not_le h]

theorem setEntry_filter_key (m : Entries) (k : String) (v : Int) :
    (setEntry m k v).filter (fun e => e.1 == k) = [(k, v)] := by
  simp only [setEntry, List.filter_cons, beq_self_eq_true, if_pos, List.filter_filter]
  have : ∀ e : String × Int, ((e.1 == k) && (e.1 != k)) = false := by
    intro e
    by_cases h : e.1 = k <;> simp [h]
  rw [List.filter_congr (fun e _ => this e)]
  simp

theorem lookupTs_setEntry_self (m : Entries) (k : String) (v : Int) :
    lookupTs (setEntry m k v) k = some v := by
  simp [lookupTs, setEntry, List.find?_cons]

/-! ### Claim theorems -/

/-- C1: `GetActive` returns exactly the set union of the non-stale
registrations (timestamp at least `now - staleTimeout`) and the
official-list addresses, deduplicated by address, as a lexicographically
sorted sequence with no duplicates; calls against identical underlying
state return identically ordered sequences. -/
theorem getActive_snapshot_spec (m : Entries) (cfg : Config) (now : Int) :
    (∀ a, a ∈ getActive m cfg now ↔
      (∃ ts, (a, ts) ∈ m ∧ now - cfg.staleTimeout ≤ ts) ∨ a ∈ cfg.officialServers)
    ∧ (getActive m cfg now).Sorted (fun a b => strLe a b = true)
    ∧ (getActive m cfg now).Nodup
    ∧ (∀ m' cfg', m' = m → cfg' = cfg → getActive m' cfg' now = getActive m cfg now) :=
  ⟨fun a => mem_getActive m cfg now a, getActive_sorted m cfg now,
    getActive_nodup m cfg now, fun m' cfg' hm hc => by rw [hm, hc]⟩

/-- Closed instance of `getActive_snapshot_spec`, evaluated at a concrete
state where one reported entry also sits on the official list. -/
theorem getActive_snapshot_spec_witness :
    "1.2.3.4:2301" ∈ getActive [("1.2.3.4:2301", 0)]
      ⟨80, "LU-Server/0.1", 60, [], ["1.2.3.4:2301", "10.0.0.1:9000"], "l", true⟩ 30 :=
  ((getActive_snapshot_spec [("1.2.3.4:2301", 0)]
      ⟨80, "LU-Server/0.1", 60, [], ["1.2.3.4:2301", "10.0.0.1:9000"], "l", true⟩ 30).1
    "1.2.3.4:2301").mpr (Or.inr (by decide))

/-- C2 counterexample: with `staleTimeout = 60`, an entry reported at
`t0 = 0` (official list empty) is still in the snapshot at query time
`t0 + T = 60`: `GetActive` keeps `ts >= cutoff`, so the claimed absence
for every query time at or after `t0 + T` fails at exactly `t0 + T`. -/
theorem staleness_boundary_counterexample :
    "1.2.3.4:2301" ∈ getActive [("1.2.3.4:2301", 0)]
      ⟨80, "LU-Server/0.1", 60, [], [], "l", true⟩ 60 := by decide

/-- C2 (amended): for `staleTimeout = T`, an entry reported at `t0` and
not on the official list appears in the snapshot for every query time in
the closed interval `[t0, t0 + T]` and is absent for every query time
strictly after `t0 + T`; the snapshot computes staleness itself, so this
holds for every mapping containing the entry, regardless of sweeps. -/
theorem staleness_boundary (m : Entries) (cfg : Config) (addr : String)
    (t0 now : Int) (hmem : (addr, t0) ∈ m)
    (honly : ∀ ts, (addr, ts) ∈ m → ts = t0)
    (hoff : addr ∉ cfg.officialServers) :
    (t0 ≤ now ∧ now ≤ t0 + cfg.staleTimeout → addr ∈ getActive m cfg now)
    ∧ (t0 + cfg.staleTimeout < now → addr ∉ getActive m cfg now) := by
  constructor
  · rintro ⟨h1, h2⟩
    exact (mem_getActive m cfg now addr).mpr (Or.inl ⟨t0, hmem, by omega⟩)
  · intro h hIn
    rcases (mem_getActive m cfg now addr).mp hIn with ⟨ts, hts, hcut⟩ | h'
    · have := honly ts hts
      omega
    · exact hoff h'

/-- Closed instance of `staleness_boundary` at `t0 = 0`, `T = 60`:
present at query time 30, absent at query time 100. -/
theorem staleness_boundary_witness :
    ("1.2.3.4:2301" ∈ getActive [("1.2.3.4:2301", 0)]
      ⟨80, "LU-Server/0.1", 60, [], [], "l", true⟩ 30)
    ∧ ("1.2.3.4:2301" ∉ getActive [("1.2.3.4:2301", 0)]
      ⟨80, "LU-Server/0.1", 60, [], [], "l", true⟩ 100) :=
  ⟨(staleness_boundary [("1.2.3.4:2301", 0)]
      ⟨80, "LU-Server/0.1", 60, [], [], "l", true⟩ "1.2.3.4:2301" 0 30
      (by decide) (by intro ts h; simpa using h) (by decide)).1
      ⟨by decide, by decide⟩,
    (staleness_boundary [("1.2.3.4:2301", 0)]
      ⟨80, "LU-Server/0.1", 60, [], [], "l", true⟩ "1.2.3.4:2301" 0 100
      (by decide) (by intro ts h; simpa using h) (by decide)).2 (by decide)⟩

/-- C3: two `Report` calls on the same address (the second at a
later-or-equal time) leave exactly one entry for that address, holding
the later call's timestamp. -/
theorem report_overwrite_latest (m : Entries) (ip : String) (port : Int)
    (t1 t2 : Int) (_h : t1 ≤ t2) :
    ((report (report m ip port t1) ip port t2).filter
        (fun e => e.1 == ip ++ ":" ++ toString port))
      = [(ip ++ ":" ++ toString port, t2)]
    ∧ lookupTs (report (report m ip port t1) ip port t2)
        (ip ++ ":" ++ toString port) = some t2 :=
  ⟨setEntry_filter_key (report m ip port t1) (ip ++ ":" ++ toString port) t2,
    lookupTs_setEntry_self (report m ip port t1) (ip ++ ":" ++ toString port) t2⟩

/-- Closed instance of `report_overwrite_latest` with reports at times 0
and 5. -/
theorem report_overwrite_latest_witness :
    (0 : Int) ≤ 5
    ∧ (((report (report [] "1.2.3.4" 2301 0) "1.2.3.4" 2301 5).filter
          (fun e => e.1 == "1.2.3.4" ++ ":" ++ toString (2301 : Int)))
        = [("1.2.3.4" ++ ":" ++ toString (2301 : Int), 5)]
      ∧ lookupTs (report (report [] "1.2.3.4" 2301 0) "1.2.3.4" 2301 5)
          ("1.2.3.4" ++ ":" ++ toString (2301 : Int)) = some 5) :=
  ⟨by decide, report_overwrite_latest [] "1.2.3.4" 2301 0 5 (by decide)⟩

/-- C4: every address on the official list is in every `GetActive`
result, for every registration mapping and every query time. -/
theorem official_list_permanence (m : Entries) (cfg : Config) (now : Int)
    (a : String) (h : a ∈ cfg.officialServers) : a ∈ getActive m cfg now :=
  (mem_getActive m cfg now a).mpr (Or.inr h)

/-- Closed instance of `official_list_permanence`: the official address is
present even though it was reported long ago (staleTimeout 60, reported
at 0, queried at 1000000). -/
theorem official_list_permanence_witness :
    "10.0.0.1:9000" ∈ getActive [("10.0.0.1:9000", 0)]
      ⟨80, "LU-Server/0.1", 60, [], ["10.0.0.1:9000"], "l", true⟩ 1000000 :=
  official_list_permanence [("10.0.0.1:9000", 0)]
    ⟨80, "LU-Server/0.1", 60, [], ["10.0.0.1:9000"], "l", true⟩ 1000000
    "10.0.0.1:9000" (by decide)

/-- C5: the expiry sweep body is idempotent: sweeping twice in
succession with no intervening reports changes nothing on the second
run. -/
theorem sweep_idempotent (m : Entries) (cfg : Config) (now : Int) :
    cleanupSweep (cleanupSweep m cfg now) cfg now = cleanupSweep m cfg now := by
  simp only [cleanupSweep, List.filter_filter, Bool.and_self]

theorem lookupTs_mem (m : Entries) (k : String) (t : Int)
    (h : lookupTs m k = some t) : ∃ e, e ∈ m ∧ e.1 = k ∧ e.2 = t := by
  simp only [lookupTs, Option.map_eq_some'] at h
  obtain ⟨e, hfind, hev⟩ := h
  refine ⟨e, List.mem_of_find?_eq_some hfind, ?_, hev⟩
  have := List.find?_some hfind
  simpa using this

theorem find?_key_filter_ne (m : Entries) (k k' : String) (h : k' ≠ k) :
    (m.filter (fun e => e.1 != k)).find? (fun e => e.1 == k')
      = m.find? (fun e => e.1 == k') := by
  induction m with
  | nil => rfl
  | cons e m ih =>
    by_cases he : e.1 = k'
    · rw [List.filter_cons_of_pos (by simp [he, h]), List.find?_cons_of_pos _ (by simp [he]),
        List.find?_cons_of_pos _ (by simp [he])]
    · by_cases hek : e.1 = k
      · rw [List.filter_cons_of_neg (by simp [hek]),
          List.find?_cons_of_neg _ (by simp [he]), ih]
      · rw [List.filter_cons_of_pos (by simp [hek]),
          List.find?_cons_of_neg _ (by simp [he]),
          List.find?_cons_of_neg _ (by simp [he]), ih]

theorem lookupTs_setEntry_ne (m : Entries) (k : String) (v : Int) (k' : String)
    (h : k' ≠ k) : lookupTs (setEntry m k v) k' = lookupTs m k' := by
  simp only [lookupTs, setEntry]
  rw [List.find?_cons_of_neg _ (by simp [Ne.symm h]), find?_key_filter_ne m k k' h]

theorem lookupTs_sweep_ge (m : Entries) (c : Int) (k : String) (t₁ t₂ : Int)
    (h1 : lookupTs m k = some t₁)
    (h2 : lookupTs (m.filter (fun e => !decide (e.2 < c))) k = some t₂) :
    t₁ ≤ t₂ := by
  induction m with
  | nil => simp [lookupTs] at h1
  | cons e m ih =>
    by_cases hk : e.1 = k
    · rw [lookupTs, List.find?_cons_of_pos _ (by simp [hk]), Option.map_some'] at h1
      have ht1 : e.2 = t₁ := by simpa using h1
      by_cases hs : e.2 < c
      · rw [List.filter_cons_of_neg (by simp [hs])] at h2
        obtain ⟨e', he'mem, -, he'v⟩ := lookupTs_mem _ k t₂ h2
        have hpred : ¬ (e'.2 < c) := by
          have := (List.mem_filter.mp he'mem).2
          simpa using this
        omega
      · rw [List.filter_cons_of_pos (by simp [hs])] at h2
        rw [lookupTs, List.find?_cons_of_pos _ (by simp [hk]), Option.map_some'] at h2
        have ht2 : e.2 = t₂ := by simpa using h2
        omega
    · rw [lookupTs, List.find?_cons_of_neg _ (by simp [hk])] at h1
      by_cases hs : e.2 < c
      · rw [List.filter_cons_of_neg (by simp [hs])] at h2
        exact ih h1 h2
      · rw [List.filter_cons_of_pos (by simp [hs])] at h2
        rw [lookupTs, List.find?_cons_of_neg _ (by simp [hk])] at h2
        exact ih h1 h2

theorem neverDecreases_of_mono (cfg : Config) (m : Entries) (c : Int)
    (ops : List (Op × Int)) (hb : boundedBy m c) (ht : timesMono c ops) :
    neverDecreases cfg m ops := by
  induction ops generalizing m c with
  | nil => trivial
  | cons s rest ih =>
    obtain ⟨op, t⟩ := s
    obtain ⟨hct, hrest⟩ := ht
    refine ⟨?_, ih (opApply cfg m op t) t ?_ hrest⟩
    · intro k t₁ t₂ h1 h2
      cases op with
      | report ip port =>
        simp only [opApply, report] at h2
        by_cases hk : k = ip ++ ":" ++ toString port
        · subst hk
          rw [lookupTs_setEntry_self] at h2
          obtain ⟨e, hem, -, hev⟩ := lookupTs_mem m _ t₁ h1
          have := hb e hem
          have ht2 : t = t₂ := by simpa using h2
          omega
        · rw [lookupTs_setEntry_ne _ _ _ _ hk] at h2
          rw [h1] at h2
          simp only [Option.some.injEq] at h2
          omega
      | sweep =>
        simp only [opApply, cleanupSweep] at h2
        exact lookupTs_sweep_ge m _ k t₁ t₂ h1 h2
    · intro e he
      cases op with
      | report ip port =>
        simp only [opApply, report, setEntry] at he
        rcases List.mem_cons.mp he with he | he
        · rw [he]
        · exact le_trans (hb e (List.mem_of_mem_filter he)) hct
      | sweep =>
        exact le_trans (hb e (List.mem_of_mem_filter he)) hct

/-- C7: along any sequence of Report and sweep steps with a
non-decreasing clock (starting from a mapping whose timestamps do not
exceed the starting clock), no entry moves between two present states
with a timestamp decrease: a Report on a present key stores a
greater-or-equal timestamp, and the sweep only removes entries (every
surviving entry occurs unchanged in the pre-sweep mapping). -/
theorem no_timestamp_decrease (cfg : Config) (m : Entries) (c : Int)
    (ops : List (Op × Int)) (hb : boundedBy m c) (ht : timesMono c ops) :
    neverDecreases cfg m ops
    ∧ ∀ (m' : Entries) (t : Int), ∀ e ∈ cleanupSweep m' cfg t, e ∈ m' :=
  ⟨neverDecreases_of_mono cfg m c ops hb ht,
    fun _ _ _ he => List.mem_of_mem_filter he⟩

/-- Closed instance of `no_timestamp_decrease`: a report at time 5
followed by a sweep at time 70, from the empty mapping with starting
clock 0. -/
theorem no_timestamp_decrease_witness :
    boundedBy [] 0
    ∧ timesMono 0 [(Op.report "1.2.3.4" 2301, 5), (Op.sweep, 70)]
    ∧ (neverDecreases ⟨80, "LU-Server/0.1", 60, [], [], "l", true⟩ []
        [(Op.report "1.2.3.4" 2301, 5), (Op.sweep, 70)]
      ∧ ∀ (m' : Entries) (t : Int),
          ∀ e ∈ cleanupSweep m' ⟨80, "LU-Server/0.1", 60, [], [], "l", true⟩ t,
            e ∈ m') :=
  ⟨by simp [boundedBy], by norm_num [timesMono],
    no_timestamp_decrease ⟨80, "LU-Server/0.1", 60, [], [], "l", true⟩ [] 0
      [(Op.report "1.2.3.4" 2301, 5), (Op.sweep, 70)]
      (by simp [boundedBy]) (by norm_num [timesMono])⟩

/-- C6: the sweep and the snapshot agree on the cutoff formula: a sweep
pass at time `t` followed by a snapshot at time `t` yields exactly the
snapshot at time `t` without the sweep, and the sweep keeps exactly the
entries the snapshot's staleness filter keeps. -/
theorem sweep_snapshot_agree (m : Entries) (cfg : Config) (now : Int) :
    getActive (cleanupSweep m cfg now) cfg now = getActive m cfg now
    ∧ (∀ e : String × Int,
        e ∈ cleanupSweep m cfg now ↔ e ∈ m ∧ now - cfg.staleTimeout ≤ e.2) := by
  constructor
  · simp only [getActive, cleanupSweep]
    rw [filter_keep_of_sweep]
  · intro e
    simp [cleanupSweep, List.mem_filter, not_lt]

/-- Effect of the inner report handler on the mapping: either it leaves
the mapping unchanged, or every admission check passed and it performed
`report ip port` with a validated ip and port. -/
theorem reportHandler_entries (cfg : Config) (go : GoPrims) (req : Request)
    (now : Int) (m : Entries) :
    (reportHandler cfg go req now m).2 = m
    ∨ ∃ ip rest port, go.splitHostPort req.remoteAddr = some (ip, rest)
        ∧ atoi req.portField = some port
        ∧ go.parseIPOk ip = true
        ∧ 1024 ≤ port ∧ port ≤ 65535
        ∧ (reportHandler cfg go req now m).2 = report m ip port now := by
  unfold reportHandler
  by_cases h1 : req.method ≠ "POST"
  · left; rw [if_pos h1]
  · rw [if_neg h1]
    by_cases h2 : req.userAgent ≠ cfg.allowedUserAgent
    · left; rw [if_pos h2]
    · rw [if_neg h2]
      by_cases h3 : req.portField = ""
      · left; rw [if_pos h3]
      · rw [if_neg h3]
        rcases hat : atoi req.portField with _ | port
        · left; rfl
        · simp only []
          by_cases h4 : port < 1024 ∨ port > 65535
          · left; rw [if_pos h4]
          · rw [if_neg h4]
            rcases hsp : go.splitHostPort req.remoteAddr with _ | ⟨ip, rest⟩
            · left; rfl
            · dsimp only
              by_cases h5 : cfg.blacklist.contains ip
              · left; rw [if_pos h5]
              · rw [if_neg h5]
                by_cases h6 : go.parseIPOk ip = false
                · left; rw [if_pos h6]
                · rw [if_neg h6]
                  right
                  refine ⟨ip, rest, port, rfl, rfl, ?_, by omega, by omega, rfl⟩
                  simpa using h6

/-- Effect of the full report endpoint: the middleware either blocks (no
mapping change) or defers to the inner handler. -/
theorem reportEndpoint_entries (cfg : Config) (go : GoPrims) (rateOk : Bool)
    (req : Request) (now : Int) (m : Entries) :
    (reportEndpoint cfg go rateOk req now m).2 = m
    ∨ (reportEndpoint cfg go rateOk req now m).2 = (reportHandler cfg go req now m).2 := by
  unfold reportEndpoint
  rcases go.splitHostPort req.remoteAddr with _ | p
  · left; rfl
  · cases rateOk
    · left; rfl
    · right; rfl

theorem goodKeys_sysApply (cfg : Config) (go : GoPrims) (m : Entries) (s : SysStep)
    (hm : ∀ e ∈ m, goodKey go e.1) : ∀ e ∈ sysApply cfg go m s, goodKey go e.1 := by
  cases s with
  | sweep t =>
    intro e he
    exact hm e (List.mem_of_mem_filter he)
  | http req rateOk t =>
    intro e he
    simp only [sysApply] at he
    rcases reportEndpoint_entries cfg go rateOk req t m with hend | hend
    · rw [hend] at he
      exact hm e he
    · rw [hend] at he
      rcases reportHandler_entries cfg go req t m with hh | ⟨ip, rest, port, -, -, hip, hlo, hhi, hh⟩
      · rw [hh] at he
        exact hm e he
      · rw [hh] at he
        simp only [report, setEntry] at he
        rcases List.mem_cons.mp he with he | he
        · rw [he]
          exact ⟨ip, port, rfl, hip, hlo, hhi⟩
        · exact hm e (List.mem_of_mem_filter he)

theorem goodKeys_sysRun (cfg : Config) (go : GoPrims) (m : Entries)
    (steps : List SysStep) (hm : ∀ e ∈ m, goodKey go e.1) :
    ∀ e ∈ sysRun cfg go m steps, goodKey go e.1 := by
  induction steps generalizing m with
  | nil => exact hm
  | cons s rest ih => exact ih _ (goodKeys_sysApply cfg go m s hm)

/-- C8: in every state reachable from the empty mapping through report
endpoint requests and sweeps, every stored key is `ip:port` for a valid
IP literal `ip` and a port in `[1024, 65535]`: requests failing the
admission checks never reach `Report`. -/
theorem reachable_keys_valid (cfg : Config) (go : GoPrims) (steps : List SysStep)
    (k : String) (ts : Int) (h : (k, ts) ∈ sysRun cfg go [] steps) :
    goodKey go k :=
  goodKeys_sysRun cfg go [] steps (by simp) (k, ts) h

/-- Closed instance of `reachable_keys_valid`: one admitted request
stores the key "1.2.3.4:2301", which satisfies `goodKey`. -/
theorem reachable_keys_valid_witness :
    (("1.2.3.4:2301", (5 : Int)) ∈ sysRun
        ⟨80, "LU-Server/0.1", 60, [], [], "l", true⟩
        ⟨fun _ => some ("1.2.3.4", "55555"), fun _ => true, fun _ => none⟩ []
        [SysStep.http ⟨"POST", "LU-Server/0.1", "2301", "1.2.3.4:55555"⟩ true 5])
    ∧ goodKey ⟨fun _ => some ("1.2.3.4", "55555"), fun _ => true, fun _ => none⟩
        "1.2.3.4:2301" :=
  ⟨by decide,
    reachable_keys_valid ⟨80, "LU-Server/0.1", 60, [], [], "l", true⟩
      ⟨fun _ => some ("1.2.3.4", "55555"), fun _ => true, fun _ => none⟩
      [SysStep.http ⟨"POST", "LU-Server/0.1", "2301", "1.2.3.4:55555"⟩ true 5]
      "1.2.3.4:2301" 5 (by decide)⟩

/-- C9 counterexample: an otherwise-valid request (POST, matching user
agent, valid port field) whose network-layer source address cannot be
split is answered 400 by the security middleware, not 200: the
middleware's own `SplitHostPort` check rejects malformed sources before
the handler's silent-acknowledge branch can run. -/
theorem silent_drop_counterexample :
    reportEndpoint ⟨80, "LU-Server/0.1", 600, [], [], "l", true⟩
      ⟨fun _ => none, fun _ => true, fun _ => none⟩ true
      ⟨"POST", "LU-Server/0.1", "2301", "bogus"⟩ 0 []
      = (HStatus.badRequest, [])
    ∧ HStatus.badRequest ≠ HStatus.ok :=
  ⟨rfl, by decide⟩

/-- C9 (amended): for an otherwise-valid registration request that
passes the rate limit: a blacklisted source IP is silently acknowledged
with 200 and the mapping is unchanged (Report is never called), while a
malformed network-layer source address is rejected with 400 by the
security middleware, again leaving the mapping unchanged without
reaching Report. -/
theorem silent_drop (cfg : Config) (go : GoPrims) (req : Request) (now : Int)
    (m : Entries)
    (hm : req.method = "POST") (hua : req.userAgent = cfg.allowedUserAgent)
    (hp : req.portField ≠ "")
    (hport : ∃ p, atoi req.portField = some p ∧ 1024 ≤ p ∧ p ≤ 65535) :
    (∀ ip rest, go.splitHostPort req.remoteAddr = some (ip, rest) →
      cfg.blacklist.contains ip = true →
      reportEndpoint cfg go true req now m = (HStatus.ok, m))
    ∧ (go.splitHostPort req.remoteAddr = none →
      reportEndpoint cfg go true req now m = (HStatus.badRequest, m)) := by
  obtain ⟨p, hat, hp1, hp2⟩ := hport
  constructor
  · intro ip rest hsp hbl
    unfold reportEndpoint reportHandler
    rw [hsp, hat, hm, hua]
    simp [hp, hbl, show ¬(p < 1024 ∨ p > 65535) by omega]
    intro h
    exact absurd (by simpa using hbl) h
  · intro hsp
    unfold reportEndpoint
    rw [hsp]

/-- Closed instance of `silent_drop`: a blacklisted source is answered
200 with the mapping left empty. -/
theorem silent_drop_witness :
    reportEndpoint ⟨80, "LU-Server/0.1", 600, ["9.9.9.9"], [], "l", true⟩
      ⟨fun _ => some ("9.9.9.9", "55555"), fun _ => true, fun _ => none⟩ true
      ⟨"POST", "LU-Server/0.1", "2301", "9.9.9.9:55555"⟩ 0 []
      = (HStatus.ok, []) :=
  (silent_drop ⟨80, "LU-Server/0.1", 600, ["9.9.9.9"], [], "l", true⟩
      ⟨fun _ => some ("9.9.9.9", "55555"), fun _ => true, fun _ => none⟩
      ⟨"POST", "LU-Server/0.1", "2301", "9.9.9.9:55555"⟩ 0 []
      rfl rfl (by decide) ⟨2301, by decide, by decide, by decide⟩).1
    "9.9.9.9" "55555" rfl (by decide)

/-- C10: when the config file is missing, unreadable, or unparsable,
`loadConfig` returns the hardcoded default configuration unchanged, for
every environment: the `LUSD_*` overrides are consulted only on the
successful-parse path, so they take effect only when a config file is
successfully loaded. -/
theorem loadConfig_failure_defaults (go : GoPrims) (env : Env) :
    loadConfig go false FileOutcome.missing env = defaultCfg
    ∧ loadConfig go false FileOutcome.readError env = defaultCfg
    ∧ loadConfig go false FileOutcome.parseError env = defaultCfg :=
  ⟨rfl, rfl, rfl⟩

end LUSD
